import Mathlib

/-!
Shallow embedding of the UCI-Dataset-Crawler repository
(src/source/crawler.py and src/source/engine/downloader.py).

HTTP fetches and the DOM are abstracted: a listing fetch outcome is
`Option (List String)` (the hrefs of the anchors matched by the CSS
selector, in document order, or `none` for a request failure), a detail
page is a `Page` record holding the texts of the elements the Python
selectors would return, and the two downloader effects (link resolution
and file transfer) are fields of a `DownloadEnv`. The Python string
primitives (strip, split, lower, startswith) are implemented here by
structural recursion on the character list of the string, so that every
definition evaluates inside the kernel; `str.isalnum` is modelled by the
ASCII `Char.isAlphanum`. A Python `dict` is an association list with
in-place overwrite (`dictInsert`), which matches insertion-order dict
semantics.
-/

namespace UCIDC

/-- The characters Python `str.strip` and `str.rstrip` remove. -/
def isPySpace (c : Char) : Bool :=
  c = ' ' || c = '\t' || c = '\n' || c = '\r' || c = Char.ofNat 11 || c = Char.ofNat 12

/-- Python `str.rstrip()` on a character list: drop trailing whitespace. -/
def pyRstrip (l : List Char) : List Char :=
  (l.reverse.dropWhile isPySpace).reverse

/-- Python `str.strip()` on a character list: drop whitespace on both ends. -/
def pyStrip (l : List Char) : List Char :=
  pyRstrip (l.dropWhile isPySpace)

/-- Python `str.strip()`. -/
def strTrim (s : String) : String :=
  String.mk (pyStrip s.data)

/-- Python `str.startswith`, decided on the character lists. -/
def strStartsWith (s pre : String) : Bool :=
  pre.data.isPrefixOf s.data

/-- Python `str.split` with a one-character separator, on character lists:
always returns one more chunk than there are separators. -/
def splitOnChar (sep : Char) (l : List Char) : List (List Char) :=
  l.foldr
    (fun c acc =>
      match acc with
      | [] => [[c]]
      | a :: as => if c = sep then [] :: a :: as else (c :: a) :: as)
    [[]]

/-- Python `str.split` with a one-character separator. -/
def strSplitOn (sep : Char) (s : String) : List String :=
  (splitOnChar sep s.data).map String.mk

/-- Python `str.lower`, restricted to ASCII as `Char.toLower` is. -/
def strToLower (s : String) : String :=
  String.mk (s.data.map Char.toLower)

/-- Python slicing `s[n:]`. -/
def strDrop (s : String) (n : Nat) : String :=
  String.mk (s.data.drop n)

/-- crawler.py line 9: base origin of the catalog. -/
def BASE_URL : String := "https://archive.ics.uci.edu"

/-- crawler.py line 29: number of datasets requested per listing page. -/
def take : Nat := 20

/-- crawler.py lines 55-59: keep an href whose nonempty slash-separated
segments are exactly three and start with the segment "dataset". -/
def isDatasetHref (h : String) : Bool :=
  let segs := (strSplitOn '/' h).filter (fun s => s ≠ "")
  segs.length = 3 && segs.headD "" = "dataset"

/-- crawler.py lines 48-60: the links one listing page contributes: anchors
whose href starts with "/dataset/" (the CSS selector), kept when
`isDatasetHref` holds, made absolute with `BASE_URL`. -/
def pageLinks (hrefs : List String) : List String :=
  ((hrefs.filter (fun h => strStartsWith h "/dataset/")).filter
      (fun h => isDatasetHref h)).map (fun h => BASE_URL ++ h)

/-- Python set insertion, modelled on lists: add at the end when absent. -/
def setInsert (s : List String) (x : String) : List String :=
  if x ∈ s then s else s ++ [x]

/-- crawler.py line 63: `all_links.update(page_links)`. -/
def setUpdate (s : List String) (xs : List String) : List String :=
  xs.foldl setInsert s

/-- crawler.py lines 32-72: the pagination loop. `pages` maps a skip
offset to the fetch outcome at that offset (`none` = request failure,
line 42 `break`); `fuel` bounds the number of iterations so the
translation is total; the second component of the result is the list of
skip offsets actually requested, in order. -/
def linkLoop (pages : Nat → Option (List String)) :
    Nat → Nat → List String → List String × List Nat
  | 0, _, acc => (acc, [])
  | fuel + 1, skip, acc =>
    match pages skip with
    | none => (acc, [skip])
    | some hrefs =>
      let pl := pageLinks hrefs
      let acc2 := setUpdate acc pl
      if pl = [] ∨ pl.length < take then (acc2, [skip])
      else ((linkLoop pages fuel (skip + take) acc2).1,
            skip :: (linkLoop pages fuel (skip + take) acc2).2)

/-- crawler.py lines 16-76: `get_dataset_links`, starting at skip 0 with an
empty accumulated set and returning the collected links. -/
def get_dataset_links (pages : Nat → Option (List String)) (fuel : Nat) :
    List String :=
  (linkLoop pages fuel 0 []).1

/-- A Python dict from field names to string values, as an ordered
association list. -/
abbrev Dict := List (String × String)

/-- Python dict lookup: value of the first (unique) entry with the key. -/
def dictGet : Dict → String → Option String
  | [], _ => none
  | e :: d, k => if e.1 = k then some e.2 else dictGet d k

/-- Python dict assignment `m[k] = v`: overwrite in place when the key is
present, append otherwise. -/
def dictInsert : Dict → String → String → Dict
  | [], k, v => [(k, v)]
  | e :: d, k, v => if e.1 = k then (k, v) :: d else e :: dictInsert d k v

/-- Python `k in m`. -/
def hasKey (d : Dict) (k : String) : Bool :=
  (dictGet d k).isSome

/-- The parts of a fetched detail page that parse_dataset_page inspects.
Fields hold element texts as beautifulsoup would return them (before the
Python-side strip): `h1Text` the first h1 of the document (line 100),
`descText` the description element located through the h1 parent/sibling
heuristic when that chain succeeds (lines 104-111), `dl` the dt texts and
dd texts of the first dl element when one exists (lines 120-123),
`classDts`/`classDds` the class-qualified fallback selections
(lines 125-127), `gridPairs` the (header, paragraph) text pairs of the
grid fallback (lines 130-141). -/
structure Page where
  h1Text : Option String
  descText : Option String
  dl : Option (List String × List String)
  classDts : List String
  classDds : List String
  gridPairs : List (String × String)

/-- Outcome of fetching and souping a detail page: a request failure
(caught at line 155), an exception during parsing (caught at line 158,
carrying the value the local variable `name` had at that point), or a
successfully parsed page. -/
inductive FetchOutcome where
  | requestError : FetchOutcome
  | parseError : String → FetchOutcome
  | ok : Page → FetchOutcome

/-- crawler.py lines 146-150: strip the key and remove a leading "# ". -/
def normKey (k : String) : String :=
  let kt := strTrim k
  if strStartsWith kt "# " then strDrop kt 2 else kt

/-- crawler.py line 152: `if key and value and value != '-'`, on the
normalized key and stripped value. -/
def KeepPair (k v : String) : Prop :=
  normKey k ≠ "" ∧ strTrim v ≠ "" ∧ strTrim v ≠ "-"

instance decidableKeepPair (k v : String) : Decidable (KeepPair k v) :=
  inferInstanceAs (Decidable (normKey k ≠ "" ∧ strTrim v ≠ "" ∧ strTrim v ≠ "-"))

/-- One iteration of the key/value loop, crawler.py lines 144-153. -/
def pairStep (m : Dict) (kv : String × String) : Dict :=
  if KeepPair kv.1 kv.2 then dictInsert m (normKey kv.1) (strTrim kv.2) else m

/-- crawler.py lines 144-153: fold the extracted pairs into the record. -/
def processPairs : Dict → List (String × String) → Dict
  | m, [] => m
  | m, kv :: rest => processPairs (pairStep m kv) rest

/-- crawler.py line 101: dataset name from the first h1, "N/A" otherwise. -/
def h1Name (p : Page) : String :=
  match p.h1Text with
  | some t => strTrim t
  | none => "N/A"

/-- crawler.py lines 104-111: description defaults to "N/A" and is only
looked up when an h1 element exists and the heuristic chain finds one. -/
def h1Desc (p : Page) : String :=
  match p.h1Text with
  | none => "N/A"
  | some _ =>
    match p.descText with
    | some d => strTrim d
    | none => "N/A"

/-- crawler.py lines 116-141: collect dt and dd texts. The dl element wins
when present; otherwise the class-qualified selectors; when the dt list is
still empty the grid pairs are appended to both lists (note the Python
code appends the grid values to the possibly nonempty dd list); the two
lists are then zipped. -/
def collectPairs (p : Page) : List (String × String) :=
  let dtdd := match p.dl with
    | some td => td
    | none => (p.classDts, p.classDds)
  let dtdd2 := if dtdd.1 = ([] : List String) then
      (dtdd.1 ++ p.gridPairs.map (fun g => g.1),
       dtdd.2 ++ p.gridPairs.map (fun g => g.2))
    else dtdd
  dtdd2.1.zip dtdd2.2

/-- crawler.py lines 96-153, the successful-fetch path: build the base
record then fold in the extracted pairs. -/
def parseSuccess (url : String) (p : Page) : Dict :=
  processPairs [("name", h1Name p), ("url", url), ("description", h1Desc p)]
    (collectPairs p)

/-- crawler.py lines 79-162: `parse_dataset_page`, per fetch outcome. The
request-failure branch (line 157) returns name/url only; the
parse-failure branch (line 161) adds the sentinel description. -/
def parse_dataset_page (url : String) : FetchOutcome → Dict
  | .requestError => [("name", "N/A"), ("url", url)]
  | .parseError nm => [("name", nm), ("url", url), ("description", "Error during parsing.")]
  | .ok p => parseSuccess url p

/-- Contiguous-sublist test on character lists. -/
def containsSub (pat : List Char) : List Char → Bool
  | [] => pat.isPrefixOf []
  | c :: cs => pat.isPrefixOf (c :: cs) || containsSub pat cs

/-- Substring test, used for the CSS attribute selectors with `*=`. -/
def strContains (s pat : String) : Bool :=
  containsSub pat.data s.data

/-- downloader.py line 33: anchor matched by `a[href*="/static/public/"]`. -/
def staticAnchor (h : String) : Bool :=
  strContains h "/static/public/"

/-- downloader.py line 37: anchor matched by `a[href*="/api/v1/datasets/"]`. -/
def apiAnchor (h : String) : Bool :=
  strContains h "/api/v1/datasets/"

/-- downloader.py lines 42-44: a relative href (leading slash) is prefixed
with the base origin. -/
def absolutize (h : String) : String :=
  if strStartsWith h "/" then BASE_URL ++ h else h

/-- downloader.py lines 14-50: `get_direct_download_link`. The argument is
the fetch outcome for the metadata page: `none` for a request failure
(caught at line 48), otherwise the hrefs of the page anchors in document
order; `select_one` is the first match. -/
def get_direct_download_link (outcome : Option (List String)) : Option String :=
  match outcome with
  | none => none
  | some anchors =>
    match anchors.find? (fun h => staticAnchor h) with
    | some el => some (absolutize el)
    | none =>
      match anchors.find? (fun h => apiAnchor h) with
      | some el => some (absolutize el)
      | none => none

/-- downloader.py line 76: characters the name sanitizer keeps. -/
def keepChar (c : Char) : Bool :=
  c.isAlphanum || c = ' ' || c = '_' || c = '-'

/-- downloader.py line 77: `.replace(' ', '_')` on a single character is a
character map. -/
def spaceToUnder (c : Char) : Char :=
  if c = ' ' then '_' else c

/-- downloader.py lines 76-77: keep allowed characters, strip trailing
whitespace, replace each space with an underscore. -/
def safe_name (name : String) : String :=
  String.mk ((pyRstrip (name.data.filter keepChar)).map spaceToUnder)

/-- Modelled from the claim wording of C8 only, for comparison with
`safe_name`: keep exactly the alphanumerics, spaces, underscores and
hyphens and turn each space into an underscore (no trailing strip). -/
def claimedSafeName (name : String) : String :=
  String.mk ((name.data.filter keepChar).map spaceToUnder)

/-- Recursive formulation of removing trailing whitespace, used to state
the amended sanitizer property. -/
def stripTrailing : List Char → List Char
  | [] => []
  | c :: cs =>
    match stripTrailing cs with
    | [] => if isPySpace c then [] else [c]
    | r => c :: r

/-- downloader.py line 89: `direct_link.split('.')[-1].split('?')[0].lower()`. -/
def trailingSeg (link : String) : String :=
  strToLower ((strSplitOn '?' ((strSplitOn '.' link).getLastD "")).headD "")

/-- downloader.py line 90: the extension allow-set. -/
def allowedExts : List String := ["zip", "csv", "rar", "tgz", "txt"]

/-- downloader.py lines 89-92: default to "zip" when the trailing segment
is longer than five characters or outside the allow-set. -/
def file_extension (link : String) : String :=
  if 5 < (trailingSeg link).length ∨ trailingSeg link ∉ allowedExts then "zip"
  else trailingSeg link

/-- One metadata row handed to the downloader (columns name and url). -/
structure Row where
  name : String
  url : String

/-- The downloader environment: `resolve` is the result of
`get_direct_download_link` for a metadata url, `fetchFile` the outcome of
the streamed file GET for a direct link (content, or the error message of
the caught exception). -/
structure DownloadEnv where
  resolve : String → Option String
  fetchFile : String → Except String String

/-- Downloader state: the files on disk (path to content), the
`successful_downloads` counter, and the direct links for which a
file-download HTTP request was actually issued, in order. -/
structure DState where
  fs : Dict
  count : Nat
  fileRequests : List String

/-- downloader.py lines 71-121, the body of the loop for one row: sanitize
the name, resolve the direct link (skip on failure), compute the target
path, skip counting a success when the file exists, otherwise issue the
download and either write the file and count a success or swallow the
failure. -/
def processRow (env : DownloadEnv) (dir : String) (st : DState) (row : Row) :
    DState :=
  match env.resolve row.url with
  | none => st
  | some link =>
    let path := dir ++ "/" ++ safe_name row.name ++ "." ++ file_extension link
    if hasKey st.fs path then
      { st with count := st.count + 1 }
    else
      match env.fetchFile link with
      | .ok content =>
        { fs := dictInsert st.fs path content
          count := st.count + 1
          fileRequests := st.fileRequests ++ [link] }
      | .error _ =>
        { st with fileRequests := st.fileRequests ++ [link] }

/-- downloader.py lines 53-124: `download_datasets` iterates the rows in
order, threading the state. -/
def download_datasets (env : DownloadEnv) (dir : String) (rows : List Row)
    (st : DState) : DState :=
  rows.foldl (processRow env dir) st

/-! Concrete inputs used by witnesses and counterexamples. -/

/-- A full listing page: twenty matching dataset anchors. -/
def hrefs20 : List String := List.replicate 20 "/dataset/1/a"

/-- A listing environment: a full page at skip 0, a one-link page at skip
20, request failures elsewhere. -/
def pagesW : Nat → Option (List String)
  | 0 => some hrefs20
  | 20 => some ["/dataset/9/z"]
  | _ => none

/-- A detail page with no h1 element but a dl row keyed "description". -/
def pC2 : Page := ⟨none, none, some (["description"], ["custom text"]), [], [], []⟩

/-- A detail page with no h1 element and one innocuous dl row. -/
def pC2W : Page := ⟨none, none, some (["# Instances"], ["5"]), [], [], []⟩

/-- A detail page with an h1, no description element, and two dl rows: one
with a "# " key and one with the "-" placeholder value. -/
def pC7 : Page := ⟨some "Iris", none, some (["# Instances", "bad"], ["150", "-"]), [], [], []⟩

/-- A detail page whose dl rows scrape the keys name, url and description. -/
def p10 : Page := ⟨some "Iris", some "About iris", some (["name", "url", "description"], ["N2", "U2", "D2"]), [], [], []⟩

/-- A metadata page holding both an API anchor and a static anchor. -/
def asW : List String := ["/api/v1/datasets/1/x", "/static/public/1/x.zip"]

/-- A downloader row for the Iris dataset. -/
def rowW : Row := ⟨"Iris", "https://e/dataset/53/iris"⟩

/-- A downloader environment that resolves the Iris metadata url and whose
file transfer always fails. -/
def envW : DownloadEnv :=
  ⟨fun u => if u = "https://e/dataset/53/iris" then some "https://e/static/public/53/iris.zip" else none,
   fun _ => Except.error "connection refused"⟩

/-- A state where the Iris target file is already on disk. -/
def stExists : DState := ⟨[("dl/Iris.zip", "cached")], 3, []⟩

/-- A state with an empty disk. -/
def stEmpty : DState := ⟨[], 0, []⟩

/-! Helper lemmas. -/

/-- Unfolding of one pagination iteration. -/
lemma linkLoop_succ (pages : Nat → Option (List String)) (fuel skip : Nat)
    (acc : List String) :
    linkLoop pages (fuel + 1) skip acc =
      match pages skip with
      | none => (acc, [skip])
      | some hrefs =>
        let pl := pageLinks hrefs
        let acc2 := setUpdate acc pl
        if pl = [] ∨ pl.length < take then (acc2, [skip])
        else ((linkLoop pages fuel (skip + take) acc2).1,
              skip :: (linkLoop pages fuel (skip + take) acc2).2) := rfl

lemma setInsert_nodup (s : List String) (x : String) (h : s.Nodup) :
    (setInsert s x).Nodup := by
  unfold setInsert
  split
  · exact h
  · rename_i hx
    simp [List.nodup_append, h, hx]

lemma setUpdate_nodup (xs s : List String) (h : s.Nodup) :
    (setUpdate s xs).Nodup := by
  induction xs generalizing s with
  | nil => exact h
  | cons a t ih =>
    simp only [setUpdate, List.foldl_cons]
    exact ih (setInsert s a) (setInsert_nodup s a h)

lemma linkLoop_nodup (pages : Nat → Option (List String)) (fuel : Nat) :
    ∀ (skip : Nat) (acc : List String), acc.Nodup →
      ((linkLoop pages fuel skip acc).1).Nodup := by
  induction fuel with
  | zero => intro skip acc h; exact h
  | succ n ih =>
    intro skip acc hacc
    rw [linkLoop_succ]
    cases hp : pages skip with
    | none => exact hacc
    | some hrefs =>
      dsimp only
      by_cases hc : pageLinks hrefs = [] ∨ (pageLinks hrefs).length < take
      · rw [if_pos hc]
        exact setUpdate_nodup _ _ hacc
      · rw [if_neg hc]
        exact ih (skip + take) _ (setUpdate_nodup _ _ hacc)

lemma dictGet_dictInsert_self (d : Dict) (k v : String) :
    dictGet (dictInsert d k v) k = some v := by
  induction d with
  | nil => simp [dictInsert, dictGet]
  | cons e d ih =>
    by_cases he : e.1 = k
    · simp [dictInsert, he, dictGet]
    · simp [dictInsert, he, dictGet, ih]

lemma dictGet_dictInsert_ne (d : Dict) (k2 v k : String) (h : k2 ≠ k) :
    dictGet (dictInsert d k2 v) k = dictGet d k := by
  induction d with
  | nil => simp [dictInsert, dictGet, h]
  | cons e d ih =>
    by_cases he : e.1 = k2
    · simp [dictInsert, he, dictGet, h]
    · simp [dictInsert, he, dictGet, ih]

lemma hasKey_dictInsert_mono (d : Dict) (k k2 v : String)
    (h : hasKey d k = true) : hasKey (dictInsert d k2 v) k = true := by
  by_cases hk : k2 = k
  · subst hk
    simp [hasKey, dictGet_dictInsert_self]
  · simpa [hasKey, dictGet_dictInsert_ne d k2 v k hk] using h

lemma mem_dictInsert (d : Dict) (k v : String) (e : String × String)
    (he : e ∈ dictInsert d k v) : e ∈ d ∨ e = (k, v) := by
  induction d with
  | nil =>
    simp only [dictInsert, List.mem_singleton] at he
    exact Or.inr he
  | cons a d ih =>
    by_cases ha : a.1 = k
    · simp only [dictInsert, if_pos ha] at he
      rcases List.mem_cons.mp he with h1 | h1
      · exact Or.inr h1
      · exact Or.inl (List.mem_cons_of_mem _ h1)
    · simp only [dictInsert, if_neg ha] at he
      rcases List.mem_cons.mp he with h1 | h1
      · exact Or.inl (h1 ▸ List.mem_cons_self a d)
      · rcases ih h1 with h2 | h2
        · exact Or.inl (List.mem_cons_of_mem _ h2)
        · exact Or.inr h2

lemma dictGet_processPairs_ne (pairs : List (String × String)) (k : String) :
    ∀ (m : Dict), (∀ kv ∈ pairs, normKey kv.1 ≠ k) →
      dictGet (processPairs m pairs) k = dictGet m k := by
  induction pairs with
  | nil => intro m _; rfl
  | cons kv rest ih =>
    intro m h
    rw [processPairs]
    rw [ih (pairStep m kv) (fun e he => h e (List.mem_cons_of_mem _ he))]
    unfold pairStep
    split
    · exact dictGet_dictInsert_ne m (normKey kv.1) (strTrim kv.2) k
        (h kv (List.mem_cons_self _ _))
    · rfl

lemma hasKey_processPairs_mono (pairs : List (String × String)) (k : String) :
    ∀ (m : Dict), hasKey m k = true → hasKey (processPairs m pairs) k = true := by
  induction pairs with
  | nil => intro m h; exact h
  | cons kv rest ih =>
    intro m h
    rw [processPairs]
    apply ih
    unfold pairStep
    split
    · exact hasKey_dictInsert_mono m k _ _ h
    · exact h

lemma hasKey_processPairs_of_mem (pairs : List (String × String))
    (kv : String × String) (hkp : KeepPair kv.1 kv.2) :
    ∀ (m : Dict), kv ∈ pairs →
      hasKey (processPairs m pairs) (normKey kv.1) = true := by
  induction pairs with
  | nil => intro m h; cases h
  | cons a rest ih =>
    intro m hmem
    rw [processPairs]
    rcases List.mem_cons.mp hmem with h | h
    · subst h
      apply hasKey_processPairs_mono
      unfold pairStep
      rw [if_pos hkp]
      simp [hasKey, dictGet_dictInsert_self]
    · exact ih (pairStep m a) h

lemma mem_processPairs (pairs : List (String × String)) (e : String × String) :
    ∀ (m : Dict), e ∈ processPairs m pairs →
      e ∈ m ∨ ∃ kv, kv ∈ pairs ∧ KeepPair kv.1 kv.2 ∧
        e = (normKey kv.1, strTrim kv.2) := by
  induction pairs with
  | nil => intro m h; exact Or.inl h
  | cons kv rest ih =>
    intro m h
    rw [processPairs] at h
    rcases ih (pairStep m kv) h with hm | ⟨kv2, h1, h2, h3⟩
    · unfold pairStep at hm
      by_cases hkp : KeepPair kv.1 kv.2
      · rw [if_pos hkp] at hm
        rcases mem_dictInsert m _ _ e hm with h1 | h1
        · exact Or.inl h1
        · exact Or.inr ⟨kv, List.mem_cons_self _ _, hkp, h1⟩
      · rw [if_neg hkp] at hm
        exact Or.inl hm
    · exact Or.inr ⟨kv2, List.mem_cons_of_mem _ h1, h2, h3⟩

/-! Claim theorems. -/

/-- C1: while a listing page parses to exactly `take` (= 20) matching
links, the loop updates the accumulated set, advances the offset by
`take` and fetches the next page (its skip is recorded in the request
trace); a page with fewer matching links stops the loop and returns the
deduplicated union including that page; a request failure stops the loop
and returns what was gathered before it. -/
theorem c1_lister_pagination (pages : Nat → Option (List String))
    (fuel skip : Nat) (acc : List String) (hrefs : List String) :
    (pages skip = some hrefs → (pageLinks hrefs).length = take →
      linkLoop pages (fuel + 1) skip acc =
        ((linkLoop pages fuel (skip + take) (setUpdate acc (pageLinks hrefs))).1,
         skip :: (linkLoop pages fuel (skip + take) (setUpdate acc (pageLinks hrefs))).2)) ∧
    (pages skip = some hrefs → (pageLinks hrefs).length < take →
      linkLoop pages (fuel + 1) skip acc = (setUpdate acc (pageLinks hrefs), [skip])) ∧
    (pages skip = none →
      linkLoop pages (fuel + 1) skip acc = (acc, [skip])) := by
  refine ⟨?_, ?_, ?_⟩
  · intro hp hlen
    have hcond : ¬ (pageLinks hrefs = [] ∨ (pageLinks hrefs).length < take) := by
      rintro (h | h)
      · rw [h] at hlen
        exact absurd hlen (by decide)
      · rw [hlen] at h
        exact absurd h (by decide)
    rw [linkLoop_succ, hp]
    dsimp only
    rw [if_neg hcond]
  · intro hp hlen
    rw [linkLoop_succ, hp]
    dsimp only
    rw [if_pos (Or.inr hlen)]
  · intro hp
    rw [linkLoop_succ, hp]

/-- Witness for C1: with `pagesW`, the full page at skip 0 advances to
skip 20, the one-link page at skip 20 stops with the union, and a request
failure at skip 40 stops with the accumulator. -/
theorem c1_lister_pagination_witness :
    (linkLoop pagesW (1 + 1) 0 [] =
      ((linkLoop pagesW 1 (0 + take) (setUpdate [] (pageLinks hrefs20))).1,
       0 :: (linkLoop pagesW 1 (0 + take) (setUpdate [] (pageLinks hrefs20))).2)) ∧
    (linkLoop pagesW (0 + 1) 20 (setUpdate [] (pageLinks hrefs20)) =
      (setUpdate (setUpdate [] (pageLinks hrefs20)) (pageLinks ["/dataset/9/z"]), [20])) ∧
    (linkLoop pagesW (0 + 1) 40 [] = ([], [40])) :=
  ⟨(c1_lister_pagination pagesW 1 0 [] hrefs20).1 rfl (by decide),
   (c1_lister_pagination pagesW 0 20 (setUpdate [] (pageLinks hrefs20)) ["/dataset/9/z"]).2.1
      rfl (by decide),
   (c1_lister_pagination pagesW 0 40 [] []).2.2 rfl⟩

/-- C9: the list of urls returned by get_dataset_links never contains a
duplicate, for any listing environment and fuel. -/
theorem c9_links_nodup (pages : Nat → Option (List String)) (fuel : Nat) :
    (get_dataset_links pages fuel).Nodup :=
  linkLoop_nodup pages fuel 0 [] List.nodup_nil

/-- C2 counterexample: a successfully fetched page with no h1 element but
a dl row keyed "description" yields a record whose description is the
scraped value, not "N/A". -/
theorem c2_description_counterexample :
    pC2.h1Text = none ∧
    dictGet (parse_dataset_page "u" (FetchOutcome.ok pC2)) "description" = some "custom text" ∧
    dictGet (parse_dataset_page "u" (FetchOutcome.ok pC2)) "description" ≠ some "N/A" :=
  ⟨rfl, by decide, by decide⟩

/-- C2 (amended): parse_dataset_page is total over every fetch outcome and
its record always has the keys name and url; on the successful-fetch path
with no h1 element, description is "N/A" provided no extracted pair
normalizes to the key "description" (such a pair overwrites it). -/
theorem c2_record_keys_amended (url : String) (o : FetchOutcome) :
    hasKey (parse_dataset_page url o) "name" = true ∧
    hasKey (parse_dataset_page url o) "url" = true ∧
    (∀ p, o = FetchOutcome.ok p → p.h1Text = none →
      (∀ kv ∈ collectPairs p, normKey kv.1 ≠ "description") →
      dictGet (parse_dataset_page url o) "description" = some "N/A") := by
  refine ⟨?_, ?_, ?_⟩
  · cases o with
    | requestError => simp [parse_dataset_page, hasKey, dictGet]
    | parseError nm => simp [parse_dataset_page, hasKey, dictGet]
    | ok p =>
      apply hasKey_processPairs_mono
      simp [hasKey, dictGet]
  · cases o with
    | requestError => simp [parse_dataset_page, hasKey, dictGet]
    | parseError nm => simp [parse_dataset_page, hasKey, dictGet]
    | ok p =>
      apply hasKey_processPairs_mono
      simp [hasKey, dictGet]
  · intro p ho hnone hnd
    subst ho
    show dictGet (parseSuccess url p) "description" = some "N/A"
    unfold parseSuccess
    rw [dictGet_processPairs_ne (collectPairs p) "description" _ hnd]
    simp [dictGet, h1Desc, hnone]

/-- Witness for the amended C2, at a page with no h1 element and one
innocuous extracted pair. -/
theorem c2_record_keys_amended_witness :
    hasKey (parse_dataset_page "u0" (FetchOutcome.ok pC2W)) "name" = true ∧
    dictGet (parse_dataset_page "u0" (FetchOutcome.ok pC2W)) "description" = some "N/A" :=
  ⟨(c2_record_keys_amended "u0" (FetchOutcome.ok pC2W)).1,
   (c2_record_keys_amended "u0" (FetchOutcome.ok pC2W)).2.2 pC2W rfl rfl (by decide)⟩

/-- C7: each entry of a successfully parsed record is one of the three
base entries or comes from an extracted pair that passed the filter
(nonempty normalized key, stripped value neither empty nor "-"), with its
key "# "-normalized and its value stripped; and every extracted pair
passing the filter puts its normalized key into the record. -/
theorem c7_field_normalization (url : String) (p : Page) :
    (∀ e, e ∈ parse_dataset_page url (FetchOutcome.ok p) →
      e = ("name", h1Name p) ∨ e = ("url", url) ∨ e = ("description", h1Desc p) ∨
      ∃ kv, kv ∈ collectPairs p ∧ KeepPair kv.1 kv.2 ∧
        e = (normKey kv.1, strTrim kv.2)) ∧
    (∀ kv, kv ∈ collectPairs p → KeepPair kv.1 kv.2 →
      hasKey (parse_dataset_page url (FetchOutcome.ok p)) (normKey kv.1) = true) := by
  constructor
  · intro e he
    have he2 : e ∈ processPairs
        [("name", h1Name p), ("url", url), ("description", h1Desc p)]
        (collectPairs p) := he
    rcases mem_processPairs (collectPairs p) e _ he2 with hm | ⟨kv, h1, h2, h3⟩
    · simp only [List.mem_cons, List.not_mem_nil, or_false] at hm
      tauto
    · exact Or.inr (Or.inr (Or.inr ⟨kv, h1, h2, h3⟩))
  · intro kv hmem hkp
    exact hasKey_processPairs_of_mem (collectPairs p) kv hkp _ hmem

/-- Witness for C7: the pair with key "# Instances" ends up in the record
under the key "Instances". -/
theorem c7_field_normalization_witness :
    hasKey (parse_dataset_page "u3" (FetchOutcome.ok pC7)) (normKey "# Instances") = true :=
  (c7_field_normalization "u3" pC7).2 ("# Instances", "150") (by decide) (by decide)

/-- C10: on a page whose dl rows scrape the keys name, url and
description, the returned record maps each of those keys to the scraped
value; in particular its url differs from the input url. -/
theorem c10_scraped_overwrite :
    dictGet (parse_dataset_page "https://e/dataset/53/iris" (FetchOutcome.ok p10)) "name" = some "N2" ∧
    dictGet (parse_dataset_page "https://e/dataset/53/iris" (FetchOutcome.ok p10)) "url" = some "U2" ∧
    dictGet (parse_dataset_page "https://e/dataset/53/iris" (FetchOutcome.ok p10)) "description" = some "D2" ∧
    dictGet (parse_dataset_page "https://e/dataset/53/iris" (FetchOutcome.ok p10)) "url" ≠
      some "https://e/dataset/53/iris" := by
  refine ⟨by decide, by decide, by decide, by decide⟩

/-- C3: get_direct_download_link uses the first static-file anchor when
one matches, falls back to the first API anchor otherwise, returns none
when neither matches or when the fetch failed, and prefixes a relative
href with the site origin. -/
theorem c3_link_resolution (as : List String) (el : String) :
    (as.find? (fun h => staticAnchor h) = some el →
      get_direct_download_link (some as) = some (absolutize el)) ∧
    (as.find? (fun h => staticAnchor h) = none →
      as.find? (fun h => apiAnchor h) = some el →
      get_direct_download_link (some as) = some (absolutize el)) ∧
    (as.find? (fun h => staticAnchor h) = none →
      as.find? (fun h => apiAnchor h) = none →
      get_direct_download_link (some as) = none) ∧
    (get_direct_download_link none = none) ∧
    (strStartsWith el "/" = true →
      absolutize el = "https://archive.ics.uci.edu" ++ el) := by
  refine ⟨?_, ?_, ?_, rfl, ?_⟩
  · intro h
    simp [get_direct_download_link, h]
  · intro h1 h2
    simp [get_direct_download_link, h1, h2]
  · intro h1 h2
    simp [get_direct_download_link, h1, h2]
  · intro h
    simp [absolutize, h, BASE_URL]

/-- Witness for C3: on a page holding both an API anchor and a static
anchor, the static anchor wins and its relative href is absolutized. -/
theorem c3_link_resolution_witness :
    get_direct_download_link (some asW) = some (absolutize "/static/public/1/x.zip") ∧
    absolutize "/static/public/1/x.zip" =
      "https://archive.ics.uci.edu" ++ "/static/public/1/x.zip" :=
  ⟨(c3_link_resolution asW "/static/public/1/x.zip").1 (by decide),
   (c3_link_resolution asW "/static/public/1/x.zip").2.2.2.2 (by decide)⟩

/-- C4: the filename extension equals the trailing segment of the link
(after the last dot, query removed, lowercased) exactly when that segment
lies in the allow-set, and defaults to "zip" otherwise; in particular a
"csv" trailing segment yields "csv" and an "html" one yields "zip". -/
theorem c4_extension_detection (link : String) :
    (trailingSeg link ∈ allowedExts → file_extension link = trailingSeg link) ∧
    (trailingSeg link ∉ allowedExts → file_extension link = "zip") ∧
    (trailingSeg link = "csv" → file_extension link = "csv") ∧
    (trailingSeg link = "html" → file_extension link = "zip") := by
  refine ⟨?_, ?_, ?_, ?_⟩
  · intro h
    have hlen : ¬ 5 < (trailingSeg link).length := by
      simp only [allowedExts, List.mem_cons, List.not_mem_nil, or_false] at h
      rcases h with h | h | h | h | h <;> rw [h] <;> decide
    unfold file_extension
    rw [if_neg]
    rintro (hl | hm)
    · exact hlen hl
    · exact hm h
  · intro h
    unfold file_extension
    rw [if_pos (Or.inr h)]
  · intro h
    unfold file_extension
    rw [h]
    decide
  · intro h
    unfold file_extension
    rw [h]
    decide

/-- Witness for C4 at a link ending in ".csv" and one ending in ".html". -/
theorem c4_extension_detection_witness :
    file_extension "https://e/f.csv" = "csv" ∧
    file_extension "https://e/p.html" = "zip" :=
  ⟨(c4_extension_detection "https://e/f.csv").2.2.1 (by decide),
   (c4_extension_detection "https://e/p.html").2.2.2 (by decide)⟩

/-- C5: when the computed target path is already on disk, processing the
row leaves the filesystem untouched, issues no file-download request, and
increments the success counter. -/
theorem c5_skip_existing (env : DownloadEnv) (dir : String) (st : DState)
    (row : Row) (link : String)
    (hres : env.resolve row.url = some link)
    (hex : hasKey st.fs
      (dir ++ "/" ++ safe_name row.name ++ "." ++ file_extension link) = true) :
    (processRow env dir st row).fs = st.fs ∧
    (processRow env dir st row).count = st.count + 1 ∧
    (processRow env dir st row).fileRequests = st.fileRequests := by
  unfold processRow
  rw [hres]
  dsimp only
  rw [if_pos hex]
  exact ⟨rfl, rfl, rfl⟩

/-- Witness for C5: the Iris file is already on disk, so the state only
gains a counter increment. -/
theorem c5_skip_existing_witness :
    (processRow envW "dl" stExists rowW).fs = stExists.fs ∧
    (processRow envW "dl" stExists rowW).count = stExists.count + 1 ∧
    (processRow envW "dl" stExists rowW).fileRequests = stExists.fileRequests :=
  c5_skip_existing envW "dl" stExists rowW "https://e/static/public/53/iris.zip"
    (by decide) (by decide)

/-- C6: a failed file transfer for one row is absorbed (only the request
trace grows) and the batch continues with the remaining rows. -/
theorem c6_per_record_failure (env : DownloadEnv) (dir : String) (st : DState)
    (r : Row) (rest : List Row) (link msg : String)
    (hres : env.resolve r.url = some link)
    (hne : hasKey st.fs
      (dir ++ "/" ++ safe_name r.name ++ "." ++ file_extension link) = false)
    (hfail : env.fetchFile link = Except.error msg) :
    download_datasets env dir (r :: rest) st =
      download_datasets env dir rest
        { st with fileRequests := st.fileRequests ++ [link] } := by
  have hstep : processRow env dir st r =
      { st with fileRequests := st.fileRequests ++ [link] } := by
    unfold processRow
    rw [hres]
    dsimp only
    rw [if_neg (by simp [hne]), hfail]
  show List.foldl (processRow env dir) st (r :: rest) = _
  rw [List.foldl_cons, hstep]
  rfl

/-- Witness for C6: a one-row batch whose transfer fails continues into
the empty remainder with only the request trace extended. -/
theorem c6_per_record_failure_witness :
    download_datasets envW "dl" (rowW :: []) stEmpty =
      download_datasets envW "dl" []
        { stEmpty with fileRequests :=
            stEmpty.fileRequests ++ ["https://e/static/public/53/iris.zip"] } :=
  c6_per_record_failure envW "dl" stEmpty rowW []
    "https://e/static/public/53/iris.zip" "connection refused"
    (by decide) (by decide) rfl

lemma dropWhile_append_of_all {p : Char → Bool} (l1 l2 : List Char)
    (h : ∀ x ∈ l1, p x = true) :
    (l1 ++ l2).dropWhile p = l2.dropWhile p := by
  induction l1 with
  | nil => rfl
  | cons a t ih =>
    rw [List.cons_append, List.dropWhile_cons, h a (List.mem_cons_self a t)]
    exact ih (fun x hx => h x (List.mem_cons_of_mem a hx))

lemma dropWhile_append_of_ne_nil {p : Char → Bool} (l1 l2 : List Char)
    (h : l1.dropWhile p ≠ []) :
    (l1 ++ l2).dropWhile p = l1.dropWhile p ++ l2 := by
  induction l1 with
  | nil => exact absurd rfl h
  | cons a t ih =>
    by_cases hp : p a = true
    · rw [List.cons_append, List.dropWhile_cons, hp]
      rw [List.dropWhile_cons, hp] at h ⊢
      exact ih h
    · rw [List.cons_append, List.dropWhile_cons, List.dropWhile_cons,
        Bool.eq_false_iff.mpr hp]
      rfl

/-- The recursive trailing-whitespace removal agrees with the
reverse-dropWhile-reverse formulation used by `safe_name`. -/
lemma stripTrailing_eq_pyRstrip (l : List Char) :
    stripTrailing l = pyRstrip l := by
  induction l with
  | nil => rfl
  | cons c cs ih =>
    rw [stripTrailing, ih]
    cases hcs : pyRstrip cs with
    | nil =>
      have hall : ∀ x ∈ cs.reverse, isPySpace x = true := by
        intro x hx
        have h0 : cs.reverse.dropWhile isPySpace = [] := by
          unfold pyRstrip at hcs
          exact List.reverse_eq_nil_iff.mp hcs
        exact List.dropWhile_eq_nil_iff.mp h0 x hx
      unfold pyRstrip
      rw [List.reverse_cons, dropWhile_append_of_all cs.reverse [c] hall,
        List.dropWhile_cons]
      by_cases hc : isPySpace c = true
      · simp [hc]
      · simp [hc]
    | cons r rs =>
      have hne : cs.reverse.dropWhile isPySpace ≠ [] := by
        intro h0
        unfold pyRstrip at hcs
        rw [h0] at hcs
        simp at hcs
      unfold pyRstrip
      rw [List.reverse_cons, dropWhile_append_of_ne_nil cs.reverse [c] hne,
        List.reverse_append]
      unfold pyRstrip at hcs
      rw [hcs]
      rfl

/-- C8 counterexample: the name "a " keeps its trailing space under the
claimed sanitizer (which turns it into an underscore), but the code
rstrips it first, so the results differ. -/
theorem c8_sanitize_counterexample :
    safe_name "a " = "a" ∧ claimedSafeName "a " = "a_" ∧
    safe_name "a " ≠ claimedSafeName "a " :=
  ⟨by decide, by decide, by decide⟩

/-- C8 (amended): the base filename keeps exactly the alphanumerics,
spaces, underscores and hyphens of the name, except that trailing
whitespace is removed (Python rstrip) before each remaining space is
replaced by an underscore. -/
theorem c8_sanitize_amended (name : String) :
    (safe_name name).data =
      (stripTrailing (name.data.filter keepChar)).map spaceToUnder := by
  rw [stripTrailing_eq_pyRstrip]
  rfl

end UCIDC
